import Mathlib

/-!
Verification of the workflow patterns in the langgraph how-to notebooks:
the agent/tools graph with conditional routing, the append-reducer state
model, checkpoint persistence keyed by thread identifier, custom-mode
streaming, and the environment/configuration helpers.
-/

set_option autoImplicit false

namespace LangGraph

/-- A chat message as the notebooks use it: a role, a textual content, and
the list of tool calls attached to the message (`last_message.tool_calls`).
Python truthiness of `tool_calls` is modelled by emptiness of the list. -/
structure Message where
  role : String
  content : String
  tool_calls : List String
deriving DecidableEq, Repr

/-- The graph state from the persistence notebook:
`class State(TypedDict): messages: Annotated[list, add_messages]`.
The state-model notebook's `AgentState` (pydantic, `operator.add`) and the
streaming notebook's `MessagesState` have the same single-field shape. -/
structure State where
  messages : List Message
deriving DecidableEq, Repr

/-- A partial state update returned by a node: the `messages` entry of the
returned dict, normalised to a list. -/
structure StateUpdate where
  messages : List Message
deriving DecidableEq, Repr

/-- The reducer annotated on the `messages` field. The persistence
notebook's own comment defines it: `def add_messages(left, right): return
left + right`, and the state-model notebook uses `operator.add`, which on
lists is concatenation. -/
def add_messages (left right : List Message) : List Message :=
  left ++ right

/-- Merging a node's returned update into the shared state applies the
per-field reducer of each field; the only field here is `messages` with
reducer `add_messages`. -/
def mergeUpdate (s : State) (u : StateUpdate) : State :=
  ⟨add_messages s.messages u.messages⟩

/-- The framework's terminal marker `END` (`langgraph.graph.END`). -/
def END : String := "__end__"

/-- The framework's entry sentinel `START` (`langgraph.graph.START`). -/
def START : String := "__start__"

/-- `should_continue` from the persistence notebook:
`last_message = state["messages"][-1]`; return `END` when
`not last_message.tool_calls`, else `"action"`. The `[-1]` index raises
IndexError on an empty list, modelled by `none`. -/
def should_continue (state : State) : Option String :=
  match state.messages.getLast? with
  | none => none
  | some last => if last.tool_calls = [] then some END else some "action"

namespace StateModel

/-- `should_continue` from the state-model notebook: same last-message
inspection, but returning the dispatch keys `"end"` / `"continue"`. -/
def should_continue (state : State) : Option String :=
  match state.messages.getLast? with
  | none => none
  | some last => if last.tool_calls = [] then some "end" else some "continue"

/-- The dispatch mapping passed to `add_conditional_edges` in the
state-model notebook: `\x7b"continue": "action", "end": END\x7d`. -/
def dispatch (key : String) : Option String :=
  if key = "continue" then some "action"
  else if key = "end" then some END
  else none

/-- The conditional edge as executed: the engine calls `should_continue`
and matches its output against the keys of the dispatch mapping. -/
def route (state : State) : Option String :=
  (should_continue state).bind dispatch

end StateModel

/-- The edge table of the persistence notebook's graph, interpreted as a
successor function. The declarations in the source are:
`add_edge(START, "agent")`, `add_conditional_edges("agent",
should_continue, ["action", END])`, `add_edge("action", "agent")`.
Modelled from the spec: conditional dispatch functions inspect a node's
output state and select among named successors at runtime, so the
successor of `"agent"` is whatever `should_continue` returns on the
current state; `none` means no edge (or the conditional function failed). -/
def step (cur : String) (s : State) : Option String :=
  if cur = START then some "agent"
  else if cur = "agent" then should_continue s
  else if cur = "action" then some "agent"
  else none

namespace Streaming

/-- The nine chunks `my_node` writes to its stream writer in the
streaming-content notebook. -/
def chunks : List String :=
  ["Four", "score", "and", "seven", "years", "ago", "our", "fathers", "..."]

/-- `my_node` from the streaming-content notebook: it writes each chunk to
the stream writer, then returns
`\x7b"messages": [AIMessage(content=" ".join(chunks))]\x7d`. The first
component collects the values passed to the writer, in order. -/
def my_node (_state : State) : List String × StateUpdate :=
  (chunks, ⟨[⟨"ai", String.intercalate " " chunks, []⟩]⟩)

/-- Modelled from the spec: the streaming call with the custom streaming
mode yields exactly the values the executed nodes pass to their stream
writer, in order. The notebook's graph runs the single node `my_node`
once (`START ⟶ model ⟶ END`), so the custom stream of a run on `input`
is the writer output of `my_node input`. -/
def streamCustom (input : State) : List String :=
  (my_node input).1

/-- The state update a run of the single-node graph produces. -/
def finalUpdate (input : State) : StateUpdate :=
  (my_node input).2

end Streaming

namespace EnvSetup

/-- The process environment, modelled as an association list; `envGet`
is `os.environ.get`, returning the first binding of a name. -/
abbrev Env := List (String × String)

/-- `os.environ.get(var)`: the first value bound to `var`, if any. -/
def envGet (env : Env) (var : String) : Option String :=
  match env with
  | [] => none
  | (k, v) :: rest => if k = var then some v else envGet rest var

/-- `os.environ[var] = val`: replace the first binding of `var`, or append
a new binding when none exists. -/
def envSet (env : Env) (var val : String) : Env :=
  match env with
  | [] => [(var, val)]
  | (k, v) :: rest =>
      if k = var then (var, val) :: rest else (k, v) :: envSet rest var val

/-- `_set_env` from the persistence notebook:
`if not os.environ.get(var): os.environ[var] = getpass.getpass(...)`.
Python's `not` is true on `None` and on the empty string. `prompted` is
the value the interactive prompt would return; the boolean records
whether the prompt ran. -/
def _set_env (env : Env) (var prompted : String) : Env × Bool :=
  match envGet env var with
  | none => (envSet env var prompted, true)
  | some v => if v = "" then (envSet env var prompted, true) else (env, false)

end EnvSetup

namespace Persistence

/-- Modelled from the spec: a checkpoint is an immutable snapshot of state
plus metadata (thread identifier, sequence position), created after each
node completes; the engine itself (compile/stream with a checkpointer such
as `MemorySaver`) is not in the source tree, only its call sites are. -/
structure Checkpoint where
  thread : String
  seq : Nat
  state : State
deriving DecidableEq, Repr

/-- The backend's store of checkpoints, in the order they were written. -/
abbrev Store := List Checkpoint

/-- The checkpoints stored under one thread identifier, in order. -/
def threadCheckpoints (store : Store) (tid : String) : Store :=
  match store with
  | [] => []
  | cp :: rest =>
      if cp.thread = tid then cp :: threadCheckpoints rest tid
      else threadCheckpoints rest tid

/-- Modelled from the spec: retrieve the latest checkpoint for a thread
identifier. -/
def getLatest (store : Store) (tid : String) : Option Checkpoint :=
  (threadCheckpoints store tid).getLast?

/-- Modelled from the spec: store a checkpoint for a (thread identifier,
sequence) pair; the lifecycle is append-only. -/
def storeCheckpoint (store : Store) (cp : Checkpoint) : Store :=
  store ++ [cp]

/-- Modelled from the spec: execute the listed node computations in order,
merging each returned update into the state via the per-field reducers and
writing a new checkpoint after each node completes. -/
def runNodes (tid : String) :
    List (State → StateUpdate) → State → Store → State × Store
  | [], s, store => (s, store)
  | n :: ns, s, store =>
      let s' := mergeUpdate s (n s)
      runNodes tid ns s'
        (storeCheckpoint store ⟨tid, (threadCheckpoints store tid).length, s'⟩)

/-- Modelled from the spec: before executing, the engine loads the latest
checkpoint stored for the thread identifier carried in the configuration
and merges the new input into the restored state; an absent checkpoint
restores the empty state. -/
def initialState (store : Store) (tid : String) (input : StateUpdate) : State :=
  let restored : State :=
    match getLatest store tid with
    | some cp => cp.state
    | none => ⟨[]⟩
  mergeUpdate restored input

/-- Modelled from the spec: one invocation of a compiled graph that was
given a checkpointer: restore and merge the input, then run the nodes with
checkpointing after each. -/
def invoke (nodes : List (State → StateUpdate)) (store : Store)
    (tid : String) (input : StateUpdate) : State × Store :=
  runNodes tid nodes (initialState store tid input) store

/-- The messages of the latest checkpoint of a thread, or `[]` if none. -/
def latestMessages (store : Store) (tid : String) : List Message :=
  match getLatest store tid with
  | some cp => cp.state.messages
  | none => []

/-- Modelled from the spec: the operations of the engine and the backend
that touch the store: an invocation (which executes nodes and stores a
checkpoint after each), and a retrieval of the latest checkpoint for a
thread, which only reads. -/
inductive Op where
  | invokeOp : List (State → StateUpdate) → String → StateUpdate → Op
  | readLatest : String → Op

/-- Effect of one operation on the checkpoint store. -/
def applyOp (store : Store) : Op → Store
  | .invokeOp nodes tid input => (invoke nodes store tid input).2
  | .readLatest _ => store

/-- Effect of a sequence of operations on the checkpoint store. -/
def applyOps (ops : List Op) (store : Store) : Store :=
  ops.foldl applyOp store

end Persistence

namespace RuntimeConfig

/-- The `configurable` dict of the runtime configuration, as key/value
pairs; `configGet` is `dict.get` returning the first binding of a key. -/
abbrev Config := List (String × String)

/-- `config["configurable"].get(k)`. -/
def configGet (c : Config) (k : String) : Option String :=
  match c with
  | [] => none
  | (k0, v) :: rest => if k0 = k then some v else configGet rest k

/-- The keys of the fixed model table
`models = \x7b"anthropic": model, "openai": openai_model\x7d`. -/
def modelKeys : List String := ["anthropic", "openai"]

/-- `_call_model` from the streaming-content notebook's
runtime-configuration graph:
`model_name = config["configurable"].get("model", "anthropic")`, then
`models[model_name]`, which raises KeyError (modelled by `Except.error`
carrying the offending name) when the name is not a key of the table;
otherwise the selected model's response becomes the state update. `resp`
abstracts the two chat models as a function of the selected key and the
input messages. -/
def _call_model (resp : String → List Message → Message)
    (state : State) (config : Config) : Except String StateUpdate :=
  let model_name := (configGet config "model").getD "anthropic"
  if model_name ∈ modelKeys then
    Except.ok ⟨[resp model_name state.messages]⟩
  else
    Except.error model_name

end RuntimeConfig

end LangGraph

namespace LangGraph

/-- C1: for every state with a non-empty messages list, `should_continue`
returns a member of the declared successor set `["action", END]`, returning
`END` exactly when the last message has no tool calls and `"action"`
exactly when it has some; the state-model variant routed through its
dispatch mapping behaves identically, with `"end"` bound to `END` and
`"continue"` bound to `"action"`. -/
theorem should_continue_routes (s : State) (m : Message)
    (h : s.messages.getLast? = some m) :
    (should_continue s = some END ∨ should_continue s = some "action")
    ∧ (should_continue s = some END ↔ m.tool_calls = [])
    ∧ (should_continue s = some "action" ↔ m.tool_calls ≠ [])
    ∧ (StateModel.route s = some END ↔ m.tool_calls = [])
    ∧ (StateModel.route s = some "action" ↔ m.tool_calls ≠ []) := by
  unfold should_continue StateModel.route StateModel.should_continue StateModel.dispatch
  rw [h]
  by_cases hc : m.tool_calls = [] <;>
    simp [hc, END, Option.bind]

/-- Witness for C1 at a concrete one-message state with no tool calls. -/
theorem should_continue_routes_witness :
    ([⟨"ai", "hi", []⟩] : List Message).getLast? = some ⟨"ai", "hi", []⟩
    ∧ should_continue ⟨[⟨"ai", "hi", []⟩]⟩ = some END :=
  ⟨by rfl,
    ((should_continue_routes ⟨[⟨"ai", "hi", []⟩]⟩ ⟨"ai", "hi", []⟩
      (by rfl)).2.1).mpr (by rfl)⟩

/-- C2: merging a node's update applies the per-field reducer, and the
reducer of the `messages` field is list concatenation: the merged messages
are the prior list followed by the update list, and taking the first
`|L|` elements of the result returns the prior list unchanged, so every
previously present element and the relative order are preserved. -/
theorem mergeUpdate_concat (s : State) (u : StateUpdate) :
    (mergeUpdate s u).messages = add_messages s.messages u.messages
    ∧ (mergeUpdate s u).messages = s.messages ++ u.messages
    ∧ (mergeUpdate s u).messages.take s.messages.length = s.messages := by
  refine ⟨rfl, rfl, ?_⟩
  simp [mergeUpdate, add_messages]

/-- C9: `should_continue` is partial at the empty state: the `[-1]` index
fails (modelled by `none`) for every state whose messages list is empty,
and under the precondition that the list is non-empty the access is safe
and a successor is always produced. -/
theorem should_continue_partiality (s : State) :
    (s.messages = [] → should_continue s = none)
    ∧ (s.messages ≠ [] → ∃ r, should_continue s = some r) := by
  constructor
  · intro h
    simp [should_continue, h]
  · intro h
    obtain ⟨m, hm⟩ := List.getLast?_isSome.mpr h |> Option.isSome_iff_exists.mp
    unfold should_continue
    rw [hm]
    by_cases hc : m.tool_calls = [] <;> simp [hc]

/-- Witness for C9 at the empty state and at a one-message state. -/
theorem should_continue_partiality_witness :
    ((⟨[]⟩ : State).messages = [] ∧ should_continue ⟨[]⟩ = none)
    ∧ ((⟨[⟨"h", "x", []⟩]⟩ : State).messages ≠ []
        ∧ ∃ r, should_continue ⟨[⟨"h", "x", []⟩]⟩ = some r) :=
  ⟨⟨rfl, (should_continue_partiality ⟨[]⟩).1 rfl⟩,
    ⟨by simp, (should_continue_partiality ⟨[⟨"h", "x", []⟩]⟩).2 (by simp)⟩⟩

/-- C6: in the compiled agent/tools graph, the entry sentinel's only
outgoing edge leads to the agent node on every state, control after the
tool node always returns to the agent node (so the exit sentinel is never
reached immediately after the tool node), and any step that reaches the
terminal marker originates at the agent node's conditional edge. -/
theorem graph_routing (cur : String) (s : State) :
    step START s = some "agent"
    ∧ step "action" s = some "agent"
    ∧ (step "action" s ≠ some END)
    ∧ (step cur s = some END → cur = "agent") := by
  refine ⟨by simp [step, START], by simp [step, START], by simp [step, START, END], ?_⟩
  intro h
  unfold step at h
  split_ifs at h with h1 h2 h3
  · simp [END] at h
  · exact h2
  · simp [END] at h

/-- Witness for C6: at a state whose last message has no tool calls, the
agent node's conditional edge reaches the terminal marker. -/
theorem graph_routing_witness :
    step "agent" ⟨[⟨"ai", "done", []⟩]⟩ = some END
    ∧ ("agent" : String) = "agent" :=
  ⟨by rfl, (graph_routing "agent" ⟨[⟨"ai", "done", []⟩]⟩).2.2.2 (by rfl)⟩

/-- C7: the custom-mode stream of the single-node graph yields exactly the
nine chunks the node passes to its stream writer, in order, and the
message in the node's returned update has content equal to those chunks
joined by single spaces, so the streamed sequence determines the final
message content. -/
theorem stream_custom_chunks (input : State) :
    Streaming.streamCustom input
      = ["Four", "score", "and", "seven", "years", "ago", "our", "fathers", "..."]
    ∧ ∃ m, (Streaming.finalUpdate input).messages = [m]
        ∧ m.content = String.intercalate " " (Streaming.streamCustom input)
        ∧ m.content = "Four score and seven years ago our fathers ..." := by
  exact ⟨rfl, ⟨"ai", String.intercalate " " Streaming.chunks, []⟩, rfl, rfl, rfl⟩

namespace EnvSetup

/-- C8 counterexample: the claim says `_set_env` prompts only when the
variable is absent, but on an environment where the variable is present
and bound to the empty string the prompt still runs, because Python's
`not os.environ.get(var)` is also true on the empty string. -/
theorem set_env_prompts_on_empty :
    envGet [("ANTHROPIC_API_KEY", "")] "ANTHROPIC_API_KEY" ≠ none
    ∧ ( _set_env [("ANTHROPIC_API_KEY", "")] "ANTHROPIC_API_KEY" "sk-1").2 = true := by
  constructor
  · simp [envGet]
  · rfl

/-- C8 amended: `_set_env` prompts exactly when the variable is absent or
bound to the empty string; when the variable holds a non-empty value it
performs no prompt and leaves the entire environment unchanged; when it
prompts it sets exactly that one variable to the prompted value and
modifies no other environment entry. -/
theorem set_env_frame (env : Env) (var prompted : String) :
    (( _set_env env var prompted).2 = true
        ↔ (envGet env var = none ∨ envGet env var = some ""))
    ∧ (∀ v, envGet env var = some v → v ≠ "" →
        _set_env env var prompted = (env, false))
    ∧ ((envGet env var = none ∨ envGet env var = some "") →
        envGet ( _set_env env var prompted).1 var = some prompted
        ∧ ∀ k, k ≠ var →
            envGet ( _set_env env var prompted).1 k = envGet env k) := by
  have hget : ∀ e : Env, envGet (envSet e var prompted) var = some prompted := by
    intro e
    induction e with
    | nil => simp [envSet, envGet]
    | cons p rest ih =>
        obtain ⟨k0, v0⟩ := p
        by_cases hp : k0 = var
        · subst hp
          simp [envSet, envGet]
        · simp [envSet, envGet, hp, ih]
  have hframe : ∀ (e : Env) (k : String), k ≠ var →
      envGet (envSet e var prompted) k = envGet e k := by
    intro e k hk
    have hvk : ¬ var = k := fun h => hk h.symm
    induction e with
    | nil => simp [envSet, envGet, hvk]
    | cons p rest ih =>
        obtain ⟨k0, v0⟩ := p
        by_cases hp : k0 = var
        · subst hp
          simp [envSet, envGet, hvk]
        · simp [envSet, envGet, hp, ih]
  refine ⟨?_, ?_, ?_⟩
  · unfold _set_env
    cases hv : envGet env var with
    | none => simp
    | some v => by_cases hv0 : v = "" <;> simp [hv0]
  · intro v hv hv0
    unfold _set_env
    rw [hv]
    simp [hv0]
  · intro hcase
    unfold _set_env
    cases hv : envGet env var with
    | none => exact ⟨hget env, fun k hk => hframe env k hk⟩
    | some v =>
        rcases hcase with hnone | hempty
        · rw [hv] at hnone; cases hnone
        · rw [hv] at hempty
          obtain rfl : v = "" := Option.some.inj hempty
          simp only [if_pos rfl]
          exact ⟨hget env, fun k hk => hframe env k hk⟩

/-- Witness for C8 amended, at an absent variable and at a non-empty one. -/
theorem set_env_frame_witness :
    (envGet [("HOME", "/root")] "API_KEY" = none
      ∧ envGet ( _set_env [("HOME", "/root")] "API_KEY" "sk-2").1 "API_KEY" = some "sk-2")
    ∧ (envGet [("API_KEY", "sk-3")] "API_KEY" = some "sk-3" ∧ ("sk-3" : String) ≠ ""
      ∧ _set_env [("API_KEY", "sk-3")] "API_KEY" "ignored" = ([("API_KEY", "sk-3")], false)) :=
  ⟨⟨by decide,
    (((set_env_frame [("HOME", "/root")] "API_KEY" "sk-2").2.2) (Or.inl (by decide))).1⟩,
    by decide,
    by decide,
    (set_env_frame [("API_KEY", "sk-3")] "API_KEY" "ignored").2.1 "sk-3" (by decide) (by decide)⟩

end EnvSetup

namespace Persistence

lemma threadCheckpoints_append (a b : Store) (tid : String) :
    threadCheckpoints (a ++ b) tid
      = threadCheckpoints a tid ++ threadCheckpoints b tid := by
  induction a with
  | nil => rfl
  | cons cp rest ih =>
      by_cases h : cp.thread = tid <;> simp [threadCheckpoints, h, ih]

lemma runNodes_store_extends (tid : String) :
    ∀ (nodes : List (State → StateUpdate)) (s : State) (store : Store),
      ∃ rest, (runNodes tid nodes s store).2 = store ++ rest
        ∧ ∀ cp ∈ rest, cp.thread = tid := by
  intro nodes
  induction nodes with
  | nil =>
      intro s store
      exact ⟨[], by simp [runNodes], by simp⟩
  | cons n ns ih =>
      intro s store
      obtain ⟨rest, hr, hall⟩ :=
        ih (mergeUpdate s (n s))
          (storeCheckpoint store ⟨tid, (threadCheckpoints store tid).length,
            mergeUpdate s (n s)⟩)
      refine ⟨⟨tid, (threadCheckpoints store tid).length,
        mergeUpdate s (n s)⟩ :: rest, ?_, ?_⟩
      · simp only [runNodes]
        rw [hr]
        simp [storeCheckpoint]
      · intro cp hcp
        rw [List.mem_cons] at hcp
        rcases hcp with rfl | hcp
        · rfl
        · exact hall cp hcp

lemma runNodes_store_length (tid : String) :
    ∀ (nodes : List (State → StateUpdate)) (s : State) (store : Store),
      ((runNodes tid nodes s store).2).length = store.length + nodes.length := by
  intro nodes
  induction nodes with
  | nil =>
      intro s store
      simp [runNodes]
  | cons n ns ih =>
      intro s store
      simp only [runNodes]
      rw [ih]
      simp [storeCheckpoint]
      omega

lemma getLatest_invoke_other (nodes : List (State → StateUpdate))
    (store : Store) (tid tid' : String) (input : StateUpdate)
    (h : tid' ≠ tid) :
    getLatest ((invoke nodes store tid' input).2) tid = getLatest store tid := by
  obtain ⟨rest, hr, hall⟩ :=
    runNodes_store_extends tid' nodes (initialState store tid' input) store
  have hnil : threadCheckpoints rest tid = [] := by
    clear hr
    induction rest with
    | nil => rfl
    | cons cp r ih =>
        have h1 : cp.thread = tid' := hall cp (by simp)
        have h2 := ih (fun c hc => hall c (by simp [hc]))
        have h3 : ¬ cp.thread = tid := by rw [h1]; exact h
        simp [threadCheckpoints, h3, h2]
  unfold invoke
  rw [hr]
  unfold getLatest
  rw [threadCheckpoints_append, hnil]
  simp

lemma runNodes_store_congr (tid : String) :
    ∀ (nodes : List (State → StateUpdate)) (s : State) (st1 st2 : Store),
      threadCheckpoints st1 tid = threadCheckpoints st2 tid →
      (runNodes tid nodes s st1).1 = (runNodes tid nodes s st2).1
      ∧ threadCheckpoints (runNodes tid nodes s st1).2 tid
          = threadCheckpoints (runNodes tid nodes s st2).2 tid := by
  intro nodes
  induction nodes with
  | nil =>
      intro s st1 st2 h
      exact ⟨rfl, h⟩
  | cons n ns ih =>
      intro s st1 st2 h
      have hlen : (threadCheckpoints st1 tid).length
          = (threadCheckpoints st2 tid).length := by rw [h]
      simp only [runNodes]
      rw [hlen]
      apply ih
      simp only [storeCheckpoint]
      rw [threadCheckpoints_append, threadCheckpoints_append, h]

/-- C3: with a checkpointer, an invocation first loads the latest
checkpoint of the thread identifier in its configuration and merges the
new input into the restored state, so the first node runs on the
concatenation of the previously checkpointed messages and the new input
messages; this still holds after an invocation under a different thread
identifier happened in between; and a new checkpoint is written after each
node, so an invocation grows the store by exactly one checkpoint per node. -/
theorem checkpoint_resume (nodes nodes' : List (State → StateUpdate))
    (store : Store) (tid tid' : String) (input input' : StateUpdate)
    (h : tid' ≠ tid) :
    (initialState store tid input).messages
      = latestMessages store tid ++ input.messages
    ∧ (initialState ((invoke nodes' store tid' input').2) tid input).messages
      = latestMessages store tid ++ input.messages
    ∧ ((invoke nodes store tid input).2).length
      = store.length + nodes.length := by
  have hinit : ∀ st : Store, (initialState st tid input).messages
      = latestMessages st tid ++ input.messages := by
    intro st
    unfold initialState latestMessages
    cases getLatest st tid <;> rfl
  refine ⟨hinit store, ?_, ?_⟩
  · have hstable := getLatest_invoke_other nodes' store tid tid' input' h
    rw [hinit ((invoke nodes' store tid' input').2)]
    unfold latestMessages
    rw [hstable]
  · exact runNodes_store_length tid nodes (initialState store tid input) store

/-- Witness for C3: a second invocation on thread "2" resumes from the
checkpoint written by the first, with an invocation on thread "3" in
between; with one node that returns no messages, the restored plus input
messages are as claimed. -/
theorem checkpoint_resume_witness :
    ("3" : String) ≠ "2"
    ∧ (initialState
        ((invoke [fun _ => ⟨[]⟩]
          [⟨"2", 0, ⟨[⟨"human", "hi, I am bob", []⟩]⟩⟩] "3" ⟨[⟨"human", "what is my name?", []⟩]⟩).2)
        "2" ⟨[⟨"human", "what is my name?", []⟩]⟩).messages
      = [⟨"human", "hi, I am bob", []⟩, ⟨"human", "what is my name?", []⟩] := by
  have h := checkpoint_resume [fun _ => ⟨[]⟩] [fun _ => ⟨[]⟩]
    [⟨"2", 0, ⟨[⟨"human", "hi, I am bob", []⟩]⟩⟩] "2" "3"
    ⟨[⟨"human", "what is my name?", []⟩]⟩ ⟨[⟨"human", "what is my name?", []⟩]⟩
    (by decide)
  exact ⟨by decide, by rw [h.2.1]; rfl⟩

/-- C4: runs under distinct thread identifiers do not interfere: the
checkpoint loaded, the final state produced, and the checkpoints written
under a thread identifier depend only on the checkpoints previously stored
under that same identifier — two stores agreeing on one thread's
checkpoints give the same loaded checkpoint, the same final state, and the
same checkpoints under that thread. -/
theorem thread_noninterference (nodes : List (State → StateUpdate))
    (s1 s2 : Store) (tid : String) (input : StateUpdate)
    (h : threadCheckpoints s1 tid = threadCheckpoints s2 tid) :
    getLatest s1 tid = getLatest s2 tid
    ∧ (invoke nodes s1 tid input).1 = (invoke nodes s2 tid input).1
    ∧ threadCheckpoints (invoke nodes s1 tid input).2 tid
        = threadCheckpoints (invoke nodes s2 tid input).2 tid := by
  have hlatest : getLatest s1 tid = getLatest s2 tid := by
    unfold getLatest
    rw [h]
  have hinit : initialState s1 tid input = initialState s2 tid input := by
    unfold initialState
    rw [hlatest]
  refine ⟨hlatest, ?_, ?_⟩
  · unfold invoke
    rw [hinit]
    exact (runNodes_store_congr tid nodes (initialState s2 tid input) s1 s2 h).1
  · unfold invoke
    rw [hinit]
    exact (runNodes_store_congr tid nodes (initialState s2 tid input) s1 s2 h).2

/-- Witness for C4: a store holding only a thread-"9" checkpoint behaves,
for thread "2", exactly like the empty store. -/
theorem thread_noninterference_witness :
    threadCheckpoints [⟨"9", 0, ⟨[⟨"human", "other", []⟩]⟩⟩] "2"
      = threadCheckpoints ([] : Store) "2"
    ∧ (invoke [fun s => ⟨s.messages⟩]
        [⟨"9", 0, ⟨[⟨"human", "other", []⟩]⟩⟩] "2" ⟨[⟨"human", "hi", []⟩]⟩).1
      = (invoke [fun s => ⟨s.messages⟩] ([] : Store) "2" ⟨[⟨"human", "hi", []⟩]⟩).1 :=
  ⟨by decide,
    (thread_noninterference [fun s => ⟨s.messages⟩]
      [⟨"9", 0, ⟨[⟨"human", "other", []⟩]⟩⟩] ([] : Store) "2"
      ⟨[⟨"human", "hi", []⟩]⟩ (by decide)).2.1⟩

/-- C5: the checkpoint store is append-only: storing a checkpoint appends
it, an invocation (which executes nodes and stores a checkpoint after
each) only appends to the store, retrieval leaves the store untouched, and
any sequence of operations leaves every previously stored checkpoint
present, unmodified, and in place — the old store is an initial segment of
the new one. -/
theorem store_append_only :
    (∀ (store : Store) (cp : Checkpoint),
      storeCheckpoint store cp = store ++ [cp])
    ∧ (∀ (nodes : List (State → StateUpdate)) (store : Store)
        (tid : String) (input : StateUpdate),
        ∃ rest, (invoke nodes store tid input).2 = store ++ rest)
    ∧ (∀ (store : Store) (tid : String), applyOp store (Op.readLatest tid) = store)
    ∧ (∀ (ops : List Op) (store : Store),
        ∃ rest, applyOps ops store = store ++ rest) := by
  have hinv : ∀ (nodes : List (State → StateUpdate)) (store : Store)
      (tid : String) (input : StateUpdate),
      ∃ rest, (invoke nodes store tid input).2 = store ++ rest := by
    intro nodes store tid input
    obtain ⟨rest, hr, _⟩ :=
      runNodes_store_extends tid nodes (initialState store tid input) store
    exact ⟨rest, hr⟩
  refine ⟨fun store cp => rfl, hinv, fun store tid => rfl, ?_⟩
  intro ops
  induction ops with
  | nil =>
      intro store
      exact ⟨[], by simp [applyOps]⟩
  | cons op ops ih =>
      intro store
      have hstep : ∃ r0, applyOp store op = store ++ r0 := by
        cases op with
        | invokeOp nodes tid input => exact hinv nodes store tid input
        | readLatest tid => exact ⟨[], by simp [applyOp]⟩
      obtain ⟨r0, h0⟩ := hstep
      obtain ⟨rest, hrest⟩ := ih (applyOp store op)
      refine ⟨r0 ++ rest, ?_⟩
      have : applyOps (op :: ops) store = applyOps ops (applyOp store op) := rfl
      rw [this, hrest, h0, List.append_assoc]

end Persistence

namespace RuntimeConfig

/-- C10: `_call_model` selects a model by looking up the configured
`model` name in the fixed two-key table, defaulting to `"anthropic"` when
the key is absent; it raises a key error exactly when a configured value
outside the two-element key set is supplied, and in that case no state
update is produced. -/
theorem call_model_config (resp : String → List Message → Message)
    (state : State) (config : Config) :
    (configGet config "model" = none →
      _call_model resp state config
        = Except.ok ⟨[resp "anthropic" state.messages]⟩)
    ∧ (∀ v, configGet config "model" = some v → v ∈ modelKeys →
      _call_model resp state config = Except.ok ⟨[resp v state.messages]⟩)
    ∧ (∀ v, configGet config "model" = some v → v ∉ modelKeys →
      _call_model resp state config = Except.error v)
    ∧ ((∃ e, _call_model resp state config = Except.error e)
        ↔ ∃ v, configGet config "model" = some v ∧ v ∉ modelKeys) := by
  unfold _call_model
  cases hv : configGet config "model" with
  | none =>
      refine ⟨fun _ => by simp [modelKeys], ?_, ?_, ?_⟩
      · intro v hv'
        cases hv'
      · intro v hv'
        cases hv'
      · simp [modelKeys]
  | some v =>
      by_cases hm : v ∈ modelKeys
      · refine ⟨fun hn => (nomatch hn), ?_, ?_, ?_⟩
        · intro w hw _
          obtain rfl : v = w := Option.some.inj hw
          simp [hm]
        · intro w hw hwm
          obtain rfl : v = w := Option.some.inj hw
          exact absurd hm hwm
        · simp [hm]
      · refine ⟨fun hn => (nomatch hn), ?_, ?_, ?_⟩
        · intro w hw hwm
          obtain rfl : v = w := Option.some.inj hw
          exact absurd hwm hm
        · intro w hw _
          obtain rfl : v = w := Option.some.inj hw
          simp [hm]
        · simp only [Option.getD]
          constructor
          · intro _
            exact ⟨v, rfl, hm⟩
          · intro _
            simp [hm]

/-- Witness for C10: a configured `"gemini"` model is outside the table
and raises; an absent key defaults to `"anthropic"`. -/
theorem call_model_config_witness :
    (configGet [("model", "gemini")] "model" = some "gemini"
      ∧ ("gemini" : String) ∉ modelKeys
      ∧ _call_model (fun n _ms => ⟨"ai", n, []⟩) ⟨[]⟩ [("model", "gemini")]
          = Except.error "gemini")
    ∧ (configGet [] "model" = none
      ∧ _call_model (fun n _ms => ⟨"ai", n, []⟩) ⟨[]⟩ []
          = Except.ok ⟨[⟨"ai", "anthropic", []⟩]⟩) :=
  ⟨⟨by decide, by decide,
    (call_model_config (fun n _ms => ⟨"ai", n, []⟩) ⟨[]⟩
      [("model", "gemini")]).2.2.1 "gemini" (by decide) (by decide)⟩,
    by decide,
    (call_model_config (fun n _ms => ⟨"ai", n, []⟩) ⟨[]⟩ []).1 (by decide)⟩

end RuntimeConfig

end LangGraph
